import Mathlib

/-!
Shallow embedding of the nasol collection pipeline (src/nasol): the
identifier utilities of parsing.py, the reconciliation and transcript
selection logic of collector.py, and the persistent-store merge rules of
storage.py, together with theorems that settle the specification claims.
Strings are modelled as Lean strings (lists of characters); the external
sha1 digest is kept as a function parameter; network-bound steps are
modelled as oracle parameters of the orchestrator.
-/

namespace Nasol

/-- ASCII upper-to-lower table, modelling Python str.lower restricted to
ASCII (the only case-carrying characters that survive the allow-list
filters of parsing.py). -/
def asciiLowerTable : List (Char × Char) :=
  [('A', 'a'), ('B', 'b'), ('C', 'c'), ('D', 'd'), ('E', 'e'), ('F', 'f'),
   ('G', 'g'), ('H', 'h'), ('I', 'i'), ('J', 'j'), ('K', 'k'), ('L', 'l'),
   ('M', 'm'), ('N', 'n'), ('O', 'o'), ('P', 'p'), ('Q', 'q'), ('R', 'r'),
   ('S', 's'), ('T', 't'), ('U', 'u'), ('V', 'v'), ('W', 'w'), ('X', 'x'),
   ('Y', 'y'), ('Z', 'z')]

/-- Lowercase one character (ASCII model of Python str.lower). -/
def pyToLower (c : Char) : Char :=
  match asciiLowerTable.lookup c with
  | some d => d
  | none => c

/-- Lowercase a character list, modelling Python str.lower. -/
def lowerList (l : List Char) : List Char :=
  l.map pyToLower

/-- Python regex \s on the character set this code handles. -/
def isPySpace (c : Char) : Bool :=
  c == ' ' || c == '\t' || c == '\n' || c == '\r' || c == '\x0b' || c == '\x0c'

/-- Replace every maximal run of characters selected by bad with a single
space; the flag records whether we are inside such a run.  With
bad = isPySpace this is re.sub(r"\s+", " ", ...). -/
def subRuns (bad : Char → Bool) : Bool → List Char → List Char
  | _, [] => []
  | prev, c :: rest =>
    if bad c then
      if prev then subRuns bad true rest
      else ' ' :: subRuns bad true rest
    else
      c :: subRuns bad false rest

/-- Python str.strip: drop whitespace from both ends. -/
def stripList (l : List Char) : List Char :=
  ((l.dropWhile isPySpace).reverse.dropWhile isPySpace).reverse

/-- Characters kept by the hash-normalization filter
[0-9A-Za-z가-힣 ] of normalize_text_for_hash. -/
def allowedHashChar (c : Char) : Bool :=
  decide ('0' ≤ c ∧ c ≤ '9') || decide ('A' ≤ c ∧ c ≤ 'Z') ||
    decide ('a' ≤ c ∧ c ≤ 'z') || decide ('가' ≤ c ∧ c ≤ '힣') || c == ' '

/-- The character-list pipeline of normalize_text_for_hash: lowercase,
collapse whitespace runs to one space, remove characters outside the
allow list, strip. -/
def hashNormList (l : List Char) : List Char :=
  stripList (List.filter allowedHashChar (subRuns isPySpace false (lowerList l)))

/-- parsing.normalize_text_for_hash: lowercase, collapse whitespace runs
to one space, remove characters outside the allow list, strip. -/
def normalize_text_for_hash (s : String) : String :=
  ⟨hashNormList s.data⟩

/-- No two adjacent whitespace characters. -/
def noSpacePair (a b : Char) : Prop :=
  ¬(isPySpace a = true ∧ isPySpace b = true)

/-- A character list on which the hash-normalization pipeline is the
identity: only allow-listed lowercase-fixed characters, single spaces,
and no space at either end. -/
def hashCanonical (l : List Char) : Prop :=
  (∀ c ∈ l, allowedHashChar c = true ∧ pyToLower c = c) ∧
  List.Chain' noSpacePair l ∧
  (∀ c, l.head? = some c → isPySpace c = false) ∧
  (∀ c, l.getLast? = some c → isPySpace c = false)

/-- parsing.transcript_hash: digest of the normalized text.  The sha1
digest itself is external (hashlib); it is abstracted as the function
argument digest. -/
def transcript_hash (digest : String → String) (text : String) : String :=
  digest (normalize_text_for_hash text)

/-- Characters kept by the title-key filter [0-9A-Za-z가-힣] of
normalize_title_for_key (note: no space in this class). -/
def keyAllowedChar (c : Char) : Bool :=
  decide ('0' ≤ c ∧ c ≤ '9') || decide ('A' ≤ c ∧ c ≤ 'Z') ||
    decide ('a' ≤ c ∧ c ≤ 'z') || decide ('가' ≤ c ∧ c ≤ '힣')

/-- One pass of re.sub(r"\[[^\]]+\]", " ", ...): each [ ... ] block with a
nonempty bracket-free body becomes one space.  Fuel-indexed structural
recursion; the initial fuel (the list length) always suffices because each
step consumes at least one character. -/
def stripSqAux : Nat → List Char → List Char
  | 0, l => l
  | _ + 1, [] => []
  | fuel + 1, c :: rest =>
    if c = '[' then
      let inner := rest.takeWhile (fun d => d ≠ ']')
      if inner.length < rest.length ∧ inner ≠ [] then
        ' ' :: stripSqAux fuel (rest.drop (inner.length + 1))
      else
        c :: stripSqAux fuel rest
    else
      c :: stripSqAux fuel rest

/-- re.sub(r"\[[^\]]+\]", " ", ...) over a character list. -/
def removeSqBlocks (l : List Char) : List Char :=
  stripSqAux l.length l

/-- One pass of re.sub(r"\([^)]*\)", " ", ...): each ( ... ) block with a
parenthesis-free (possibly empty) body becomes one space. -/
def stripParenAux : Nat → List Char → List Char
  | 0, l => l
  | _ + 1, [] => []
  | fuel + 1, c :: rest =>
    if c = '(' then
      let inner := rest.takeWhile (fun d => d ≠ ')')
      if inner.length < rest.length then
        ' ' :: stripParenAux fuel (rest.drop (inner.length + 1))
      else
        c :: stripParenAux fuel rest
    else
      c :: stripParenAux fuel rest

/-- re.sub(r"\([^)]*\)", " ", ...) over a character list. -/
def removeParenBlocks (l : List Char) : List Char :=
  stripParenAux l.length l

/-- parsing.clean_spaces: strip, then collapse whitespace runs to single
spaces. -/
def cleanSpacesList (l : List Char) : List Char :=
  subRuns isPySpace false (stripList l)

/-- parsing.normalize_title_for_key: drop [..] and (..) groups, replace
runs outside the alphanumeric/hangul allow list with spaces, clean spaces,
lowercase. -/
def normalize_title_for_key (title : String) : String :=
  ⟨lowerList (cleanSpacesList
    (subRuns (fun c => !keyAllowedChar c) false
      (removeParenBlocks (removeSqBlocks title.data))))⟩

/-- Python f-string zero-padded integer field {x:0wd}: the sign precedes
the zero padding, the width counts the sign. -/
def pyZeroPad (width : Nat) (x : Int) : String :=
  let digits := toString x.natAbs
  if x < 0 then
    "-" ++ ⟨List.replicate (width - 1 - digits.length) '0'⟩ ++ digits
  else
    ⟨List.replicate (width - digits.length) '0'⟩ ++ digits

/-- The day component of make_dedupe_key: the upload date unless it is
missing or empty (Python falsiness), in which case "0000-00-00". -/
def dedupeDay (upload_date : Option String) : String :=
  match upload_date with
  | some d => if d = "" then "0000-00-00" else d
  | none => "0000-00-00"

/-- The title component of make_dedupe_key: the normalized title truncated
to 48 characters, or "untitled" when that is empty. -/
def dedupeTitlePart (title : String) : String :=
  let t := (normalize_title_for_key title).data.take 48
  if t.isEmpty then "untitled" else ⟨t⟩

/-- parsing.make_dedupe_key: f"s{season:02d}{episode_part}:d{day}:{norm}"
where episode_part = f":e{episode:03d}" when the episode is known and ""
otherwise. -/
def make_dedupe_key (season episode : Option Int) (upload_date : Option String)
    (title : String) : String :=
  let seasonVal : Int := season.getD 0
  let episodePart : String :=
    match episode with
    | some e => ":e" ++ pyZeroPad 3 e
    | none => ""
  "s" ++ pyZeroPad 2 seasonVal ++ episodePart ++ ":d" ++ dedupeDay upload_date
    ++ ":" ++ dedupeTitlePart title

/-- parsing.ensure_season_list: the sorted set of the input values lying
in the valid season range 1..29. -/
def ensure_season_list (values : List Int) : List Int :=
  ((values.filter (fun v => decide (1 ≤ v ∧ v ≤ 29))).dedup).insertionSort (· ≤ ·)

/-- An enriched episode candidate: the payload built by
NasolCollector._enrich_candidates (and, with the metric fields at their
defaults, the seed records of the discovery strategies). -/
structure Candidate where
  video_id : String
  title : String
  description : String
  url : String
  channel_title : String
  channel_id : String
  channel_url : String
  duration_seconds : Int
  duration_text : String
  upload_date : Option String
  published_ts : Int
  view_count : Int
  like_count : Int
  comment_count : Int
  season : Option Int
  episode : Option Int
  series_type : String
  source : String
  is_official : Bool
  source_priority : Int
  dedupe_key : String
deriving DecidableEq, Repr

/-- Ordered-dictionary lookup by key (Python dict indexing). -/
def findVal {β : Type} (k : String) : List (String × β) → Option β
  | [] => none
  | (k', v) :: rest => if k' = k then some v else findVal k rest

/-- Ordered-dictionary store d[k] = v: replace in place when the key is
present (keeping its original position), append otherwise. -/
def upsertAssoc {β : Type} (k : String) (v : β) : List (String × β) → List (String × β)
  | [] => [(k, v)]
  | (k', v') :: rest =>
    if k' = k then (k', v) :: rest else (k', v') :: upsertAssoc k v rest

/-- Collapse a candidate list through a Python dict keyed by video id:
one entry per id, positioned at its first occurrence, holding the last
value stored for that id. -/
def dedupeById (l : List Candidate) : List Candidate :=
  (l.foldl (fun m v => upsertAssoc v.video_id v m) []).map Prod.snd

/-- The comparison tuple of NasolCollector._is_higher_priority, as a point
of the lexicographic order: (is-official, source-priority, view-count,
comment-count, upload-date or ""). -/
def prioKey (c : Candidate) :
    Lex (Nat × Lex (Int × Lex (Int × Lex (Int × String)))) :=
  toLex ((if c.is_official then 1 else 0),
    toLex (c.source_priority,
      toLex (c.view_count, toLex (c.comment_count, c.upload_date.getD ""))))

/-- NasolCollector._is_higher_priority: strict tuple comparison. -/
def is_higher_priority (incoming existing : Candidate) : Bool :=
  decide (prioKey existing < prioKey incoming)

/-- One step of NasolCollector._dedupe_candidates: insert the candidate
into the dedupe-key dictionary, replacing the incumbent only when the
incoming candidate compares strictly higher. -/
def dedupeStep (m : List (String × Candidate)) (v : Candidate) :
    List (String × Candidate) :=
  match findVal v.dedupe_key m with
  | none => m ++ [(v.dedupe_key, v)]
  | some cur => if is_higher_priority v cur then upsertAssoc v.dedupe_key v m else m

/-- NasolCollector._dedupe_candidates: collapse by video id, then keep one
winner per dedupe key. -/
def dedupeCandidates (l : List Candidate) : List Candidate :=
  ((dedupeById l).foldl dedupeStep []).map Prod.snd

/-- The sort key of NasolCollector._sort_candidates:
(season or 999, episode if known else 9999, upload_date or "9999-99-99",
video id), as a point of the lexicographic order. -/
def sortKey (c : Candidate) : Lex (Int × Lex (Int × Lex (String × String))) :=
  toLex ((match c.season with
          | some s => if s = 0 then 999 else s
          | none => 999),
    toLex ((match c.episode with
            | some e => e
            | none => 9999),
      toLex ((match c.upload_date with
              | some d => if d = "" then "9999-99-99" else d
              | none => "9999-99-99"),
        c.video_id)))

/-- Non-strict candidate comparison used by the persistence sort. -/
def candLE (a b : Candidate) : Prop :=
  sortKey a ≤ sortKey b

instance : DecidableRel candLE :=
  fun a b => inferInstanceAs (Decidable (sortKey a ≤ sortKey b))

instance : IsTotal Candidate candLE :=
  ⟨fun a b => le_total (sortKey a) (sortKey b)⟩

instance : IsTrans Candidate candLE :=
  ⟨fun _ _ _ h h' => le_trans h h'⟩

/-- NasolCollector._sort_candidates: stable sort by sortKey (Python
sorted with a key function). -/
def sortCandidates (l : List Candidate) : List Candidate :=
  l.insertionSort candLE

/-- NasolCollector._count_by_season, read off at one season: seeds whose
season is falsy (absent or zero) are not counted, so a season key of 0 is
never present in the counter dictionary. -/
def seasonCount (l : List Candidate) (s : Int) : Nat :=
  if s = 0 then 0 else (l.filter (fun v => v.season == some s)).length

/-- The missing_seasons computation of NasolCollector.collect: requested
seasons with zero authoritative coverage. -/
def missingSeasons (selected : List Int) (official : List Candidate) : List Int :=
  selected.filter (fun s => seasonCount official s == 0)

/-- The seasons the fallback strategy is actually invoked for in
NasolCollector.collect: the missing seasons, when fallback search is
enabled and at least one season is missing; no seasons otherwise. -/
def fallbackSeasonsInvoked (includeFallback : Bool) (selected : List Int)
    (official : List Candidate) : List Int :=
  if includeFallback ∧ missingSeasons selected official ≠ [] then
    missingSeasons selected official
  else []

/-- One available transcript variant (language code and whether it is
auto-generated), as listed by the transcript-source client. -/
structure TranscriptVariant where
  language : String
  is_generated : Bool
deriving DecidableEq, Repr

/-- Primary language family test of _fetch_transcript:
language in ("ko", "ko-KR"). -/
def isKoFamily (t : TranscriptVariant) : Prop :=
  t.language = "ko" ∨ t.language = "ko-KR"

instance (t : TranscriptVariant) : Decidable (isKoFamily t) :=
  inferInstanceAs (Decidable (t.language = "ko" ∨ t.language = "ko-KR"))

/-- A manual transcript in the primary language family. -/
def isManualKo (t : TranscriptVariant) : Bool :=
  decide (isKoFamily t) && !t.is_generated

/-- The selection loop of NasolCollector._fetch_transcript: a manual
primary-family variant breaks immediately; otherwise the accumulator is
filled (once) by a primary-family variant, then by a variant in the
configured preferred languages. -/
def chooseLoop (pref : List String) :
    Option (TranscriptVariant × String) → List TranscriptVariant →
    Option (TranscriptVariant × String)
  | acc, [] => acc
  | acc, t :: rest =>
    if decide (isKoFamily t) && !t.is_generated then some (t, "manual")
    else
      let acc1 := if decide (isKoFamily t) && acc.isNone then some (t, "auto") else acc
      let acc2 :=
        if (pref.contains t.language) && acc1.isNone then
          some (t, if t.is_generated then "auto" else "manual")
        else acc1
      chooseLoop pref acc2 rest

/-- The full variant selection of _fetch_transcript: the loop result, or
the first listed variant of any kind when the loop chose nothing. -/
def selectVariant (pref : List String) (ts : List TranscriptVariant) :
    Option (TranscriptVariant × String) :=
  match chooseLoop pref none ts with
  | some r => some r
  | none =>
    match ts with
    | [] => none
    | t :: _ => some (t, if t.is_generated then "auto" else "manual")

/-- CollectorConfig.preferred_languages. -/
def preferredLanguages : List String :=
  ["ko", "ko-KR", "en", "en-US"]

/-- Modelled from the spec: the transcript selection policy as §4.4 words
it — manual transcript in the primary language family, then auto-generated
transcript in the primary language family, then any transcript in a
secondary configured language, then the first available variant. -/
def selectVariantSpec (pref : List String) (ts : List TranscriptVariant) :
    Option (TranscriptVariant × String) :=
  match ts.find? (fun t => decide (isKoFamily t) && !t.is_generated) with
  | some t => some (t, "manual")
  | none =>
    match ts.find? (fun t => decide (isKoFamily t) && t.is_generated) with
    | some t => some (t, "auto")
    | none =>
      match ts.find? (fun t => pref.contains t.language && !decide (isKoFamily t)) with
      | some t => some (t, if t.is_generated then "auto" else "manual")
      | none =>
        match ts with
        | [] => none
        | t :: _ => some (t, if t.is_generated then "auto" else "manual")

/-- One stored row of the videos table (storage.py schema): metadata
columns plus the transcript sub-record, whose columns default to
status 'pending' and NULL on insert. -/
structure VideoRow where
  video_id : String
  title : String
  url : String
  channel_title : String
  channel_id : String
  channel_url : String
  description : String
  duration_seconds : Int
  duration_text : String
  upload_date : Option String
  published_ts : Int
  view_count : Int
  like_count : Int
  comment_count : Int
  season : Option Int
  episode : Option Int
  series_type : String
  source : String
  is_official : Bool
  source_priority : Int
  dedupe_key : String
  transcript_status : String
  transcript_language : Option String
  transcript_type : Option String
  transcript_text : Option String
  transcript_segments : Option String
  transcript_hash : Option String
  transcript_updated_at : Option String
  error_message : Option String
  discovered_at : String
  updated_at : String
deriving DecidableEq, Repr

/-- The title field of the upsert payload:
video.get("title", "").strip() or "(제목 없음)". -/
def payloadTitle (c : Candidate) : String :=
  let t : List Char := stripList c.title.data
  if t.isEmpty then "(제목 없음)" else ⟨t⟩

/-- The freshly inserted row of NasolRepository.upsert_video (no existing
row with this video id): metadata from the payload, transcript columns at
their schema defaults. -/
def newRow (now : String) (c : Candidate) : VideoRow :=
  { video_id := c.video_id
    title := payloadTitle c
    url := c.url
    channel_title := c.channel_title
    channel_id := c.channel_id
    channel_url := c.channel_url
    description := c.description
    duration_seconds := c.duration_seconds
    duration_text := c.duration_text
    upload_date := c.upload_date
    published_ts := c.published_ts
    view_count := c.view_count
    like_count := c.like_count
    comment_count := c.comment_count
    season := c.season
    episode := c.episode
    series_type := c.series_type
    source := c.source
    is_official := c.is_official
    source_priority := c.source_priority
    dedupe_key := c.dedupe_key
    transcript_status := "pending"
    transcript_language := none
    transcript_type := none
    transcript_text := none
    transcript_segments := none
    transcript_hash := none
    transcript_updated_at := none
    error_message := none
    discovered_at := now
    updated_at := now }

/-- The ON CONFLICT(video_id) DO UPDATE clause of upsert_video: metadata
replaced, season/episode/dedupe-key COALESCEd (an absent incoming value
never clears a stored one), source and is-official kept from whichever
side has the higher source priority, source_priority maxed; the
transcript columns and discovered_at are untouched. -/
def mergeRow (now : String) (row : VideoRow) (c : Candidate) : VideoRow :=
  { row with
    title := payloadTitle c
    url := c.url
    channel_title := c.channel_title
    channel_id := c.channel_id
    channel_url := c.channel_url
    description := c.description
    duration_seconds := c.duration_seconds
    duration_text := c.duration_text
    upload_date := c.upload_date
    published_ts := c.published_ts
    view_count := c.view_count
    like_count := c.like_count
    comment_count := c.comment_count
    season := match c.season with
              | some s => some s
              | none => row.season
    episode := match c.episode with
               | some e => some e
               | none => row.episode
    series_type := c.series_type
    source := if row.source_priority ≤ c.source_priority then c.source else row.source
    is_official :=
      if row.source_priority ≤ c.source_priority then c.is_official else row.is_official
    source_priority := max row.source_priority c.source_priority
    dedupe_key := c.dedupe_key
    updated_at := now }

/-- NasolRepository.upsert_video on the videos table (primary-key
insert-or-merge). -/
def upsertVideo (now : String) (videos : List (String × VideoRow)) (c : Candidate) :
    List (String × VideoRow) :=
  match findVal c.video_id videos with
  | none => videos ++ [(c.video_id, newRow now c)]
  | some row => upsertAssoc c.video_id (mergeRow now row c) videos

/-- The payload returned by NasolCollector._fetch_transcript (the segment
list is carried in its serialized form). -/
structure TranscriptResult where
  transcript_status : String
  language : String
  transcript_type : String
  transcript_text : String
  transcript_segments : String
  transcript_hash : String
  error_message : Option String
deriving DecidableEq, Repr

/-- NasolRepository.update_transcript: overwrite the transcript columns
of the row with this video id (no-op when the id is absent). -/
def updateTranscript (now : String) (videos : List (String × VideoRow))
    (vid : String) (tr : TranscriptResult) : List (String × VideoRow) :=
  videos.map (fun p =>
    if p.1 = vid then
      (p.1, { p.2 with
        transcript_status := tr.transcript_status
        transcript_language := some tr.language
        transcript_type := some tr.transcript_type
        transcript_text := some tr.transcript_text
        transcript_segments := some tr.transcript_segments
        transcript_hash := some tr.transcript_hash
        transcript_updated_at := some now
        error_message := tr.error_message
        updated_at := now })
    else p)

/-- NasolRepository.video_has_transcript: the row exists and its
transcript status is 'success'. -/
def videoHasTranscript (videos : List (String × VideoRow)) (vid : String) : Bool :=
  match findVal vid videos with
  | some row => row.transcript_status == "success"
  | none => false

/-- One row of the jobs table. -/
structure JobRow where
  status : String
  started_at : String
  finished_at : Option String
  seasons : List Int
  include_fallback : Bool
  dry_run : Bool
  total_candidates : Nat
  kept_candidates : Nat
  transcript_success : Nat
  transcript_fail : Nat
deriving DecidableEq, Repr

/-- The persistent store: videos keyed by video id, jobs keyed by job id,
append-only job logs (job id, level, message). -/
structure RepoState where
  videos : List (String × VideoRow)
  jobs : List (String × JobRow)
  logs : List (String × String × String)
deriving DecidableEq, Repr

/-- NasolRepository.create_job: insert a 'running' job row. -/
def createJob (jobId : String) (now : String) (seasons : List Int)
    (includeFallback dryRun : Bool) (st : RepoState) : RepoState :=
  { st with jobs := st.jobs ++ [(jobId,
      { status := "running"
        started_at := now
        finished_at := none
        seasons := seasons
        include_fallback := includeFallback
        dry_run := dryRun
        total_candidates := 0
        kept_candidates := 0
        transcript_success := 0
        transcript_fail := 0 })] }

/-- NasolRepository.finish_job: set terminal status, finish time and the
final counters on the job row. -/
def finishJob (jobId : String) (now : String) (status : String)
    (total kept succ fail : Nat) (st : RepoState) : RepoState :=
  { st with jobs := st.jobs.map (fun p =>
      if p.1 = jobId then
        (p.1, { p.2 with
          status := status
          finished_at := some now
          total_candidates := total
          kept_candidates := kept
          transcript_success := succ
          transcript_fail := fail })
      else p) }

/-- NasolRepository.log_job: append one log line. -/
def logJob (jobId level message : String) (st : RepoState) : RepoState :=
  { st with logs := st.logs ++ [(jobId, level, message)] }

/-- The network-bound collaborators of one collect run, passed as oracles:
the authoritative discovery result, the fallback search per missing-season
list, per-seed enrichment (None = dropped after retries), the transcript
fetch per video id, plus the run's job id and clock. -/
structure CollectEnv where
  officialSeeds : List Candidate
  fallbackSeeds : List Int → List Candidate
  enrich : Candidate → Option Candidate
  fetchTr : String → TranscriptResult
  jobId : String
  now : String

/-- The per-seed enrichment step of _enrich_candidates around the network
call: a dropped seed stays dropped, an enriched payload is kept only when
its season lies in the requested set, and its dedupe key is computed from
the enriched fields. -/
def enrichStep (env : CollectEnv) (sel : List Int) (seed : Candidate) :
    Option Candidate :=
  match env.enrich seed with
  | none => none
  | some p =>
    match p.season with
    | none => none
    | some s =>
      if s ∈ sel then
        some { p with dedupe_key := make_dedupe_key p.season p.episode p.upload_date p.title }
      else none

/-- The merged seed list of one collect run: authoritative discovery,
fallback search only over the seasons it is invoked for, union keyed by
video id with authoritative entries stored last (overriding). -/
def mergedSeeds (env : CollectEnv) (includeFallback : Bool) (sel : List Int) :
    List Candidate :=
  let official := env.officialSeeds
  let invoked := fallbackSeasonsInvoked includeFallback sel official
  let fallback := if invoked = [] then [] else env.fallbackSeeds invoked
  dedupeById (fallback ++ official)

/-- The surviving, ordered candidate list of one collect run: merged seeds,
enrichment, dedupe, deterministic sort. -/
def survivors (env : CollectEnv) (includeFallback : Bool) (sel : List Int) :
    List Candidate :=
  sortCandidates (dedupeCandidates
    ((mergedSeeds env includeFallback sel).filterMap (enrichStep env sel)))

/-- The transcript phase of collect: walk the ordered list; skip videos
already in 'success' unless forcing a refresh; otherwise fetch and persist,
counting successes and failures.  Also returns the ids actually fetched. -/
def transcriptPhase (env : CollectEnv) (force : Bool) (ordered : List Candidate)
    (videos : List (String × VideoRow)) :
    List (String × VideoRow) × List String × Nat × Nat :=
  ordered.foldl
    (fun acc video =>
      let (vs, fetched, succ, fail) := acc
      if !force && videoHasTranscript vs video.video_id then acc
      else
        let tr := env.fetchTr video.video_id
        (updateTranscript env.now vs video.video_id tr,
          fetched ++ [video.video_id],
          (if tr.transcript_status = "success" then succ + 1 else succ),
          (if tr.transcript_status = "success" then fail else fail + 1)))
    (videos, [], 0, 0)

/-- NasolCollector.collect: season validation (before any job record is
written), job creation, discovery, reconciliation, persistence, transcript
phase unless dry-run, job finalization.  Returns the final store, the list
of video ids whose transcripts were fetched, and the call's outcome. -/
def collectModel (env : CollectEnv) (includeFallback dryRun force : Bool)
    (seasons : List Int) (st : RepoState) :
    RepoState × List String × Except String Unit :=
  let sel := ensure_season_list seasons
  if sel = [] then
    (st, [], Except.error "수집할 기수를 선택해야 합니다.")
  else
    let st1 := createJob env.jobId env.now sel includeFallback dryRun st
    let total := (mergedSeeds env includeFallback sel).length
    let ordered := survivors env includeFallback sel
    let st2 := { st1 with videos := ordered.foldl (upsertVideo env.now) st1.videos }
    if dryRun then
      (finishJob env.jobId env.now "completed" total ordered.length 0 0 st2,
        [], Except.ok ())
    else
      let (vs, fetched, succ, fail) := transcriptPhase env force ordered st2.videos
      (finishJob env.jobId env.now "completed" total ordered.length succ fail
        { st2 with videos := vs },
        fetched, Except.ok ())

/-- The transcript sub-record of a stored row, as one tuple: status,
language, variant type, text, segments, content hash, transcript update
time, error message. -/
def transcriptFields (r : VideoRow) :
    String × Option String × Option String × Option String × Option String ×
      Option String × Option String × Option String :=
  (r.transcript_status, r.transcript_language, r.transcript_type,
    r.transcript_text, r.transcript_segments, r.transcript_hash,
    r.transcript_updated_at, r.error_message)

/-- The transcript sub-record of a freshly inserted row: schema defaults
(status 'pending', everything else NULL). -/
def pendingFields :
    String × Option String × Option String × Option String × Option String ×
      Option String × Option String × Option String :=
  ("pending", none, none, none, none, none, none, none)

/-- A candidate with every field at a neutral default, used to build the
concrete test candidates below. -/
def blankCandidate : Candidate :=
  { video_id := ""
    title := ""
    description := ""
    url := ""
    channel_title := ""
    channel_id := ""
    channel_url := ""
    duration_seconds := 0
    duration_text := ""
    upload_date := none
    published_ts := 0
    view_count := 0
    like_count := 0
    comment_count := 0
    season := none
    episode := none
    series_type := "unknown"
    source := "general_search"
    is_official := false
    source_priority := 1
    dedupe_key := "" }

/-- Authoritative candidate of the merge-priority scenario: priority 3,
100 views. -/
def exOfficial : Candidate :=
  { blankCandidate with
    video_id := "vidA"
    title := "나는솔로 11기"
    season := some 11
    view_count := 100
    is_official := true
    source := "official_channel"
    source_priority := 3
    dedupe_key := "k1" }

/-- General-search candidate of the merge-priority scenario: priority 1,
100000 views, same dedupe key. -/
def exSearch : Candidate :=
  { blankCandidate with
    video_id := "vidB"
    title := "나는솔로 11기"
    season := some 11
    view_count := 100000
    source := "general_search"
    source_priority := 1
    dedupe_key := "k1" }

/-- First upsert of the C4 scenario: season 11, episode unknown. -/
def c4First : Candidate :=
  { blankCandidate with
    video_id := "vid1"
    title := "나는솔로 11기"
    season := some 11
    episode := none
    source_priority := 1 }

/-- Second upsert of the C4 scenario: higher-priority source, episode 5. -/
def c4Second : Candidate :=
  { blankCandidate with
    video_id := "vid1"
    title := "나는솔로 11기 5회"
    season := some 11
    episode := some 5
    is_official := true
    source := "official_channel"
    source_priority := 3 }

/-- A transcript payload at its initial defaults. -/
def trResultDefault : TranscriptResult :=
  { transcript_status := "error"
    language := ""
    transcript_type := ""
    transcript_text := ""
    transcript_segments := ""
    transcript_hash := ""
    error_message := none }

/-- An oracle environment whose collaborators return nothing. -/
def trivEnv : CollectEnv :=
  { officialSeeds := []
    fallbackSeeds := fun _ => []
    enrich := fun _ => none
    fetchTr := fun _ => trResultDefault
    jobId := "job-1"
    now := "t0" }

/-- The store before any run. -/
def emptyRepo : RepoState :=
  { videos := [], jobs := [], logs := [] }

/-- The authoritative seed of the concrete dry-run scenario. -/
def c8seed : Candidate :=
  { blankCandidate with
    video_id := "vidA"
    title := "나는솔로 11기 1회"
    season := some 11
    episode := some 1
    upload_date := some "2024-01-01"
    is_official := true
    source := "official_channel"
    source_priority := 3 }

/-- An environment that discovers exactly c8seed and enriches it to
itself. -/
def c8env : CollectEnv :=
  { officialSeeds := [c8seed]
    fallbackSeeds := fun _ => []
    enrich := fun s => some s
    fetchTr := fun _ => trResultDefault
    jobId := "job-1"
    now := "t0" }

/-- c8seed as it survives reconciliation: its dedupe key filled in by the
enrichment step. -/
def c8cand : Candidate :=
  { c8seed with
    dedupe_key := make_dedupe_key c8seed.season c8seed.episode c8seed.upload_date c8seed.title }

/-! ### Association-list lemmas (the Python dict model) -/

theorem findVal_upsertAssoc_self {β : Type} (k : String) (v : β) :
    ∀ m : List (String × β), findVal k (upsertAssoc k v m) = some v
  | [] => by simp [upsertAssoc, findVal]
  | (k', v') :: rest => by
    by_cases h : k' = k
    · simp [upsertAssoc, findVal, h]
    · simp [upsertAssoc, findVal, h, findVal_upsertAssoc_self k v rest]

theorem findVal_upsertAssoc_ne {β : Type} (k k2 : String) (v : β) (h : k2 ≠ k) :
    ∀ m : List (String × β), findVal k2 (upsertAssoc k v m) = findVal k2 m
  | [] => by
    have h2 : k ≠ k2 := Ne.symm h
    simp [upsertAssoc, findVal, h2]
  | (k', v') :: rest => by
    by_cases hk : k' = k
    · subst hk
      have h2 : ¬k' = k2 := fun he => h (he.symm)
      simp [upsertAssoc, findVal, h2]
    · simp only [upsertAssoc, if_neg hk, findVal]
      by_cases hk2 : k' = k2
      · simp [hk2]
      · simp [hk2, findVal_upsertAssoc_ne k k2 v h rest]

theorem findVal_append {β : Type} (k : String) :
    ∀ m m2 : List (String × β),
      findVal k (m ++ m2) =
        match findVal k m with
        | some v => some v
        | none => findVal k m2
  | [], _ => by simp [findVal]
  | (k', v') :: rest, m2 => by
    by_cases h : k' = k
    · simp [findVal, h]
    · simp [findVal, h, findVal_append k rest m2]

theorem findVal_some_mem {β : Type} {k : String} {v : β} :
    ∀ {m : List (String × β)}, findVal k m = some v → (k, v) ∈ m
  | [], h => by simp [findVal] at h
  | (k', v') :: rest, h => by
    by_cases hk : k' = k
    · subst hk
      simp [findVal] at h
      simp [h]
    · simp [findVal, hk] at h
      exact List.mem_cons_of_mem _ (findVal_some_mem h)

theorem mem_upsertAssoc {β : Type} {p : String × β} {k : String} {v : β} :
    ∀ {m : List (String × β)}, p ∈ upsertAssoc k v m → p = (k, v) ∨ p ∈ m
  | [], h => by simpa [upsertAssoc] using h
  | (k', v') :: rest, h => by
    by_cases hk : k' = k
    · subst hk
      simp [upsertAssoc] at h
      rcases h with h | h
      · exact Or.inl h
      · exact Or.inr (List.mem_cons_of_mem _ h)
    · simp only [upsertAssoc, if_neg hk, List.mem_cons] at h
      rcases h with h | h
      · exact Or.inr (by simp [h])
      · rcases mem_upsertAssoc h with h2 | h2
        · exact Or.inl h2
        · exact Or.inr (List.mem_cons_of_mem _ h2)

theorem upsertAssoc_of_none {β : Type} {k : String} (v : β) :
    ∀ {m : List (String × β)}, findVal k m = none → upsertAssoc k v m = m ++ [(k, v)]
  | [], _ => by simp [upsertAssoc]
  | (k', v') :: rest, h => by
    by_cases hk : k' = k
    · simp [findVal, hk] at h
    · simp [findVal, hk] at h
      simp [upsertAssoc, hk, upsertAssoc_of_none v h]

theorem keys_upsertAssoc_of_some {β : Type} {k : String} {w : β} (v : β) :
    ∀ {m : List (String × β)}, findVal k m = some w →
      (upsertAssoc k v m).map Prod.fst = m.map Prod.fst
  | [], h => by simp [findVal] at h
  | (k', v') :: rest, h => by
    by_cases hk : k' = k
    · simp [upsertAssoc, hk]
    · simp [findVal, hk] at h
      simp [upsertAssoc, hk, keys_upsertAssoc_of_some v h]

theorem findVal_none_iff {β : Type} (k : String) :
    ∀ m : List (String × β), findVal k m = none ↔ k ∉ m.map Prod.fst
  | [] => by simp [findVal]
  | (k', v') :: rest => by
    by_cases hk : k' = k
    · simp [findVal, hk]
    · have hk2 : ¬k = k' := fun he => hk he.symm
      simp [findVal, hk, hk2, findVal_none_iff k rest]

/-! ### C4: the upsert merge never regresses season/episode to null -/

/-- C4: for every stored row and subsequent upsert of the same video id,
an absent incoming season/episode leaves the stored value unchanged and a
present incoming value always lands — in particular, upserting season 11 /
no episode and then season 11 / episode 5 from a higher-priority source
ends with episode 5 stored. -/
theorem C4_upsert_preserves_non_null :
    (∀ (now : String) (videos : List (String × VideoRow)) (c : Candidate) (row : VideoRow),
      findVal c.video_id videos = some row →
      ∃ row2, findVal c.video_id (upsertVideo now videos c) = some row2 ∧
        (c.season = none → row2.season = row.season) ∧
        (∀ s, c.season = some s → row2.season = some s) ∧
        (c.episode = none → row2.episode = row.episode) ∧
        (∀ e, c.episode = some e → row2.episode = some e)) ∧
    (∃ row2,
      findVal "vid1" (upsertVideo "t2" (upsertVideo "t1" [] c4First) c4Second) = some row2 ∧
        row2.season = some 11 ∧ row2.episode = some 5) := by
  constructor
  · intro now videos c row h
    refine ⟨mergeRow now row c, ?_, ?_, ?_, ?_, ?_⟩
    · simp [upsertVideo, h, findVal_upsertAssoc_self]
    · intro hs; simp [mergeRow, hs]
    · intro s hs; simp [mergeRow, hs]
    · intro he; simp [mergeRow, he]
    · intro e he; simp [mergeRow, he]
  · exact ⟨mergeRow "t2" (newRow "t1" c4First) c4Second, by decide, by decide, by decide⟩

/-- Witness for C4: the general merge rule applied to the concrete
two-upsert scenario. -/
theorem C4_upsert_witness :
    ∃ row2,
      findVal c4Second.video_id
          (upsertVideo "t2" (upsertVideo "t1" [] c4First) c4Second) = some row2 ∧
        (c4Second.season = none → row2.season = (newRow "t1" c4First).season) ∧
        (∀ s, c4Second.season = some s → row2.season = some s) ∧
        (c4Second.episode = none → row2.episode = (newRow "t1" c4First).episode) ∧
        (∀ e, c4Second.episode = some e → row2.episode = some e) :=
  C4_upsert_preserves_non_null.1 "t2" (upsertVideo "t1" [] c4First) c4Second
    (newRow "t1" c4First) (by decide)

/-! ### C5: fallback search only for seasons with zero authoritative coverage -/

theorem mem_fallback_invoked {inc : Bool} {sel : List Int} {official : List Candidate}
    {s : Int} (h : s ∈ fallbackSeasonsInvoked inc sel official) :
    s ∈ sel ∧ seasonCount official s = 0 := by
  unfold fallbackSeasonsInvoked at h
  split at h
  · rcases List.mem_filter.mp h with ⟨h1, h2⟩
    exact ⟨h1, by simpa using h2⟩
  · simp at h

/-- C5: the fallback strategy runs exactly over the requested seasons with
zero authoritative candidates; a season with at least one authoritative
candidate is never in the invoked set, whatever include_fallback is. -/
theorem C5_fallback_only_for_missing :
    (∀ (inc : Bool) (sel : List Int) (official : List Candidate) (s : Int),
      s ∈ fallbackSeasonsInvoked inc sel official →
        s ∈ sel ∧ seasonCount official s = 0) ∧
    (∀ (inc : Bool) (sel : List Int) (official : List Candidate) (v : Candidate) (s : Int),
      v ∈ official → v.season = some s → s ≠ 0 →
        s ∉ fallbackSeasonsInvoked inc sel official) := by
  constructor
  · intro inc sel official s h
    exact mem_fallback_invoked h
  · intro inc sel official v s hv hs hs0 hmem
    have hcount : seasonCount official s = 0 := (mem_fallback_invoked hmem).2
    have hvf : v ∈ official.filter (fun w => w.season == some s) :=
      List.mem_filter.mpr ⟨hv, by simp [hs]⟩
    rw [seasonCount, if_neg hs0] at hcount
    rw [List.length_eq_zero] at hcount
    simp [hcount] at hvf

/-- Witness for C5: season 11 is missing when discovery is empty, and is
never fallback-searched once an authoritative candidate covers it. -/
theorem C5_fallback_witness :
    ((11 : Int) ∈ [(11 : Int), 12] ∧ seasonCount ([] : List Candidate) 11 = 0) ∧
      (11 : Int) ∉ fallbackSeasonsInvoked true [11, 12] [exOfficial] :=
  ⟨C5_fallback_only_for_missing.1 true [11, 12] [] 11 (by decide),
    C5_fallback_only_for_missing.2 true [11, 12] [exOfficial] exOfficial 11
      (by decide) (by decide) (by decide)⟩

/-! ### C7: empty season selection aborts before any job record exists -/

/-- C7 counterexample: with an empty season selection, collect raises the
contract violation to the caller with the store untouched — the jobs table
stays empty, so no job record with status failed is recorded. -/
theorem C7_no_failed_job_on_empty_selection :
    collectModel trivEnv true false false [] emptyRepo
        = (emptyRepo, [], Except.error "수집할 기수를 선택해야 합니다.") ∧
      (collectModel trivEnv true false false [] emptyRepo).1.jobs = [] := by
  constructor
  · rfl
  · rfl

/-- C7 (amended): an empty effective season selection makes collect raise
immediately and abort with the store unchanged — in particular no job
record (failed or otherwise) is created for the run. -/
theorem C7_empty_selection_aborts (env : CollectEnv) (inc dry force : Bool)
    (seasons : List Int) (st : RepoState) (h : ensure_season_list seasons = []) :
    collectModel env inc dry force seasons st
      = (st, [], Except.error "수집할 기수를 선택해야 합니다.") := by
  simp [collectModel, h]

/-- Witness for C7: a selection with no valid season aborts with the store
unchanged. -/
theorem C7_empty_selection_witness :
    collectModel trivEnv true false false [99] emptyRepo
      = (emptyRepo, [], Except.error "수집할 기수를 선택해야 합니다.") :=
  C7_empty_selection_aborts trivEnv true false false [99] emptyRepo (by decide)

/-! ### C9: ensure_season_list and the in-range season gate -/

/-- C9: ensure_season_list returns a strictly increasing duplicate-free
list holding exactly the inputs in 1..29, and collect errors out for a
non-empty all-out-of-range selection exactly as for an empty one. -/
theorem C9_season_list_gate :
    (∀ values : List Int, (ensure_season_list values).Sorted (· < ·)) ∧
    (∀ (values : List Int) (a : Int),
      a ∈ ensure_season_list values ↔ a ∈ values ∧ 1 ≤ a ∧ a ≤ 29) ∧
    (∀ (env : CollectEnv) (inc dry force : Bool) (seasons : List Int) (st : RepoState),
      seasons ≠ [] → (∀ v ∈ seasons, ¬(1 ≤ v ∧ v ≤ 29)) →
      collectModel env inc dry force seasons st
        = (st, [], Except.error "수집할 기수를 선택해야 합니다.")) ∧
    (∀ (env : CollectEnv) (inc dry force : Bool) (st : RepoState),
      collectModel env inc dry force [] st
        = (st, [], Except.error "수집할 기수를 선택해야 합니다.")) := by
  refine ⟨?_, ?_, ?_, ?_⟩
  · intro values
    have hsorted : (ensure_season_list values).Sorted (· ≤ ·) :=
      List.sorted_insertionSort _ _
    have hnd : (ensure_season_list values).Nodup :=
      (List.perm_insertionSort _ _).nodup_iff.mpr (List.nodup_dedup _)
    exact hsorted.lt_of_le hnd
  · intro values a
    simp [ensure_season_list, List.mem_dedup, List.mem_filter, and_assoc]
  · intro env inc dry force seasons st _ hout
    have hfil : seasons.filter (fun v => decide (1 ≤ v ∧ v ≤ 29)) = [] :=
      List.filter_eq_nil_iff.mpr (fun a ha => by simpa using hout a ha)
    have hempty : ensure_season_list seasons = [] := by
      unfold ensure_season_list
      rw [hfil]
      rfl
    simp [collectModel, hempty]
  · intro env inc dry force st
    rfl

/-- Witness for C9: membership characterization at a sample list, and the
error outcome on an all-out-of-range non-empty selection. -/
theorem C9_season_list_witness :
    ((3 : Int) ∈ ensure_season_list [17, 3, 99]
        ↔ (3 : Int) ∈ [(17 : Int), 3, 99] ∧ 1 ≤ (3 : Int) ∧ (3 : Int) ≤ 29) ∧
      collectModel trivEnv true false false [0, 30] emptyRepo
        = (emptyRepo, [], Except.error "수집할 기수를 선택해야 합니다.") :=
  ⟨C9_season_list_gate.2.1 [17, 3, 99] 3,
    C9_season_list_gate.2.2.1 trivEnv true false false [0, 30] emptyRepo
      (by decide) (by decide)⟩

/-! ### C1: the structure of the dedupe key -/

/-- C1 counterexample: with the episode known, the key still depends on
the upload date, so it is not season+episode alone. -/
theorem C1_key_not_season_episode_only :
    make_dedupe_key (some 11) (some 5) (some "2024-01-01") "abc"
      ≠ make_dedupe_key (some 11) (some 5) (some "2024-01-02") "abc" := by
  decide

/-- C1 (amended): for a known episode the key concatenates season,
episode, upload-date and normalized truncated title components — the
episode component is added, the date and title parts are not dropped —
and the key depends on the title only through its normalization. -/
theorem C1_key_structure (season : Option Int) (e : Int)
    (upload_date : Option String) (title : String) :
    (make_dedupe_key season (some e) upload_date title
      = "s" ++ pyZeroPad 2 (season.getD 0) ++ (":e" ++ pyZeroPad 3 e) ++ ":d"
          ++ dedupeDay upload_date ++ ":" ++ dedupeTitlePart title) ∧
    (∀ t2 : String, normalize_title_for_key t2 = normalize_title_for_key title →
      make_dedupe_key season (some e) upload_date t2
        = make_dedupe_key season (some e) upload_date title) := by
  constructor
  · rfl
  · intro t2 h
    simp [make_dedupe_key, dedupeTitlePart, h]

/-- Witness for C1: two titles normalizing identically yield the same
key. -/
theorem C1_key_structure_witness :
    make_dedupe_key (some 11) (some 5) (some "2024-01-01") "abc!"
      = make_dedupe_key (some 11) (some 5) (some "2024-01-01") "abc" :=
  (C1_key_structure (some 11) 5 (some "2024-01-01") "abc").2 "abc!" (by decide)

/-! ### C3: transcript variant selection -/

/-- Unfolding one step of the selection loop: the break on a manual
primary-family variant, then — only while nothing is chosen yet — the
primary-family rule and the preferred-language rule. -/
theorem chooseLoop_cons (pref : List String) (acc : Option (TranscriptVariant × String))
    (t : TranscriptVariant) (rest : List TranscriptVariant) :
    chooseLoop pref acc (t :: rest) =
      if isManualKo t then some (t, "manual")
      else
        match acc with
        | some r => chooseLoop pref (some r) rest
        | none =>
          if decide (isKoFamily t) then chooseLoop pref (some (t, "auto")) rest
          else if pref.contains t.language then
            chooseLoop pref (some (t, if t.is_generated then "auto" else "manual")) rest
          else chooseLoop pref none rest := by
  cases acc with
  | some r =>
    by_cases h : (decide (isKoFamily t) && !t.is_generated) = true
    · simp [chooseLoop, isManualKo, h]
    · simp [chooseLoop, isManualKo, h]
  | none =>
    by_cases h : (decide (isKoFamily t) && !t.is_generated) = true
    · simp [chooseLoop, isManualKo, h]
    · by_cases h2 : decide (isKoFamily t) = true
      · simp [chooseLoop, isManualKo, h, h2]
      · by_cases hm : t.language ∈ pref
        · simp [chooseLoop, isManualKo, h, h2, hm]
        · simp [chooseLoop, isManualKo, h, h2, hm]

theorem chooseLoop_some (pref : List String) (r : TranscriptVariant × String) :
    ∀ ts : List TranscriptVariant,
      chooseLoop pref (some r) ts =
        match ts.find? isManualKo with
        | some m => some (m, "manual")
        | none => some r
  | [] => rfl
  | t :: rest => by
    rw [chooseLoop_cons]
    by_cases h : isManualKo t = true
    · simp [h, List.find?_cons_of_pos _ h]
    · simp only [h, if_false, Bool.false_eq_true, List.find?_cons_of_neg _ h]
      exact chooseLoop_some pref r rest

theorem chooseLoop_none (pref : List String) :
    ∀ ts : List TranscriptVariant,
      chooseLoop pref none ts =
        match ts.find? isManualKo with
        | some m => some (m, "manual")
        | none =>
          match ts.find? (fun x => decide (isKoFamily x) || pref.contains x.language) with
          | some t =>
            some (t, if decide (isKoFamily t) then "auto"
                     else if t.is_generated then "auto" else "manual")
          | none => none
  | [] => rfl
  | t :: rest => by
    rw [chooseLoop_cons]
    by_cases h1 : isManualKo t = true
    · simp [h1, List.find?_cons_of_pos _ h1]
    · rw [List.find?_cons_of_neg _ h1]
      rw [List.find?_cons]
      by_cases h2 : decide (isKoFamily t) = true
      · simp only [h1, h2, Bool.false_eq_true, Bool.true_or, if_false, if_true,
          eq_self_iff_true]
        rw [chooseLoop_some pref (t, "auto") rest]
      · have h2f : decide (isKoFamily t) = false := by
          rw [Bool.not_eq_true] at h2
          exact h2
        by_cases h3 : pref.contains t.language = true
        · simp only [h1, h3, h2f, Bool.false_eq_true, Bool.false_or, if_false, if_true,
            eq_self_iff_true]
          rw [chooseLoop_some pref (t, if t.is_generated = true then "auto" else "manual") rest]
        · have h3f : pref.contains t.language = false := by
            rw [Bool.not_eq_true] at h3
            exact h3
          simp only [h1, h2f, h3f, Bool.false_eq_true, Bool.false_or, if_false]
          exact chooseLoop_none pref rest

/-- C3 counterexample: the selection is order-dependent — with variants
listed as auto en before auto ko, the code keeps the secondary-language
auto en variant even though an auto primary-family (ko) variant exists,
contradicting the claimed priority order (modelled by
selectVariantSpec). -/
theorem C3_order_counterexample :
    selectVariant preferredLanguages
        [{ language := "en", is_generated := true },
         { language := "ko", is_generated := true }]
      = some ({ language := "en", is_generated := true }, "auto") ∧
    selectVariantSpec preferredLanguages
        [{ language := "en", is_generated := true },
         { language := "ko", is_generated := true }]
      = some ({ language := "ko", is_generated := true }, "auto") ∧
    selectVariant preferredLanguages
        [{ language := "en", is_generated := true },
         { language := "ko", is_generated := true }]
      ≠ selectVariantSpec preferredLanguages
        [{ language := "en", is_generated := true },
         { language := "ko", is_generated := true }] := by
  refine ⟨by decide, by decide, by decide⟩

/-- C3 (amended): a manual primary-family (ko/ko-KR) variant always wins —
the first one listed — wherever it appears; otherwise the first listed
variant that is primary-family or in the configured preferred languages is
kept with its manual/auto tag; otherwise the first available variant of
any kind is used.  In particular the claimed example
{auto ko-KR, manual ko-KR, auto en} still selects the manual ko-KR
variant. -/
theorem C3_selection_order (pref : List String) (ts : List TranscriptVariant) :
    (∀ t, ts.find? isManualKo = some t → selectVariant pref ts = some (t, "manual")) ∧
    (∀ t, ts.find? isManualKo = none →
      ts.find? (fun x => decide (isKoFamily x) || pref.contains x.language) = some t →
      selectVariant pref ts = some (t, if t.is_generated then "auto" else "manual")) ∧
    (ts.find? isManualKo = none →
      ts.find? (fun x => decide (isKoFamily x) || pref.contains x.language) = none →
      selectVariant pref ts
        = ts.head?.map (fun t => (t, if t.is_generated then "auto" else "manual"))) := by
  refine ⟨?_, ?_, ?_⟩
  · intro t h
    simp [selectVariant, chooseLoop_none pref ts, h]
  · intro t h hf
    have ht : isManualKo t = false := by
      have hmem := List.mem_of_find?_eq_some hf
      have h2 := List.find?_eq_none.mp h t hmem
      rw [Bool.not_eq_true] at h2
      exact h2
    have hloop : chooseLoop pref none ts
        = some (t, if decide (isKoFamily t) then "auto"
                   else if t.is_generated then "auto" else "manual") := by
      rw [chooseLoop_none pref ts, h, hf]
    by_cases hko : decide (isKoFamily t) = true
    · have hgen : t.is_generated = true := by
        rw [isManualKo, hko, Bool.true_and] at ht
        simpa using ht
      unfold selectVariant
      rw [hloop]
      simp [hko, hgen]
    · unfold selectVariant
      rw [hloop]
      simp [hko]
  · intro h hf
    have hsel : chooseLoop pref none ts = none := by
      rw [chooseLoop_none pref ts, h, hf]
    cases ts with
    | nil => rfl
    | cons t rest =>
      simp [selectVariant, hsel]

/-- Witness for C3: the claimed example {auto ko-KR, manual ko-KR, auto en}
selects the manual ko-KR variant. -/
theorem C3_selection_witness :
    selectVariant preferredLanguages
        [{ language := "ko-KR", is_generated := true },
         { language := "ko-KR", is_generated := false },
         { language := "en", is_generated := true }]
      = some ({ language := "ko-KR", is_generated := false }, "manual") :=
  (C3_selection_order preferredLanguages
      [{ language := "ko-KR", is_generated := true },
       { language := "ko-KR", is_generated := false },
       { language := "en", is_generated := true }]).1
    { language := "ko-KR", is_generated := false } (by decide)

/-! ### C6: deterministic persistence order -/

theorem sortKey_eq_vid {a b : Candidate} (h : sortKey a = sortKey b) :
    a.video_id = b.video_id := by
  have h2 := congrArg (fun x => (ofLex ((ofLex ((ofLex x).2)).2)).2) h
  simpa [sortKey] using h2

theorem sorted_perm_eq_of_key_inj :
    ∀ {l₁ l₂ : List Candidate}, l₁.Sorted candLE → l₂.Sorted candLE → l₁.Perm l₂ →
      (∀ a ∈ l₁, ∀ b ∈ l₁, sortKey a = sortKey b → a = b) → l₁ = l₂
  | [], l₂, _, _, hp, _ => hp.nil_eq
  | a :: t₁, [], _, _, hp, _ => by
    have := hp.length_eq
    simp at this
  | a :: t₁, b :: t₂, hs₁, hs₂, hp, hinj => by
    have hab : a = b := by
      have hmem_a : a ∈ b :: t₂ := hp.mem_iff.mp (List.mem_cons_self a t₁)
      have hmem_b : b ∈ a :: t₁ := hp.mem_iff.mpr (List.mem_cons_self b t₂)
      rcases List.mem_cons.mp hmem_a with h1 | h1
      · exact h1
      rcases List.mem_cons.mp hmem_b with h2 | h2
      · exact h2.symm
      have hle1 : candLE a b := (List.sorted_cons.mp hs₁).1 b h2
      have hle2 : candLE b a := (List.sorted_cons.mp hs₂).1 a h1
      exact hinj a (List.mem_cons_self a t₁) b (List.mem_cons_of_mem a h2)
        (le_antisymm hle1 hle2)
    subst hab
    have htail : t₁.Perm t₂ := hp.cons_inv
    have hrec : t₁ = t₂ :=
      sorted_perm_eq_of_key_inj (List.sorted_cons.mp hs₁).2 (List.sorted_cons.mp hs₂).2
        htail
        (fun x hx y hy hk =>
          hinj x (List.mem_cons_of_mem a hx) y (List.mem_cons_of_mem a hy) hk)
    rw [hrec]

/-- C6: the persistence order is the sort by (season asc with unknown as
999, episode asc with unknown as 9999, upload-date asc with unknown as
"9999-99-99", video id asc): the output is a permutation of the input,
sorted under that key, and — video ids being distinct, as they are after
the by-id dedupe — any permutation of the same input set yields the same
output sequence. -/
theorem C6_persistence_order :
    (∀ l : List Candidate, (sortCandidates l).Perm l) ∧
    (∀ l : List Candidate, (sortCandidates l).Sorted candLE) ∧
    (∀ l l' : List Candidate, l.Perm l' → (l.map Candidate.video_id).Nodup →
      sortCandidates l = sortCandidates l') := by
  refine ⟨fun l => List.perm_insertionSort _ _, fun l => List.sorted_insertionSort _ _, ?_⟩
  intro l l' hperm hnd
  have hinj : ∀ a ∈ sortCandidates l, ∀ b ∈ sortCandidates l, sortKey a = sortKey b → a = b := by
    intro a ha b hb hk
    have ha2 : a ∈ l := (List.perm_insertionSort candLE l).mem_iff.mp ha
    have hb2 : b ∈ l := (List.perm_insertionSort candLE l).mem_iff.mp hb
    exact List.inj_on_of_nodup_map hnd ha2 hb2 (sortKey_eq_vid hk)
  exact sorted_perm_eq_of_key_inj (List.sorted_insertionSort _ _)
    (List.sorted_insertionSort _ _)
    (((List.perm_insertionSort candLE l).trans hperm).trans
      (List.perm_insertionSort candLE l').symm)
    hinj

/-- Witness for C6: two orderings of the same two-candidate set sort to
the same sequence. -/
theorem C6_order_witness :
    sortCandidates [exOfficial, exSearch] = sortCandidates [exSearch, exOfficial] :=
  C6_persistence_order.2.2 [exOfficial, exSearch] [exSearch, exOfficial]
    (List.Perm.swap exSearch exOfficial []) (by decide)

/-! ### C2: dedupe keeps one maximal winner per key -/

theorem dedupe_fold_keys_consistent :
    ∀ (l : List Candidate) (m : List (String × Candidate)),
      (∀ p ∈ m, (p : String × Candidate).2.dedupe_key = p.1) →
      ∀ p ∈ l.foldl dedupeStep m, (p : String × Candidate).2.dedupe_key = p.1
  | [], m, h => h
  | v :: rest, m, h => by
    rw [List.foldl_cons]
    apply dedupe_fold_keys_consistent rest
    intro p hp
    unfold dedupeStep at hp
    cases hfind : findVal v.dedupe_key m with
    | none =>
      rw [hfind] at hp
      rcases List.mem_append.mp hp with h1 | h1
      · exact h p h1
      · have : p = (v.dedupe_key, v) := by simpa using h1
        rw [this]
    | some cur =>
      rw [hfind] at hp
      simp only [] at hp
      by_cases hh : is_higher_priority v cur = true
      · rw [if_pos hh] at hp
        rcases mem_upsertAssoc hp with h1 | h1
        · rw [h1]
        · exact h p h1
      · rw [if_neg hh] at hp
        exact h p hp

theorem dedupe_fold_keys_nodup :
    ∀ (l : List Candidate) (m : List (String × Candidate)),
      (m.map Prod.fst).Nodup →
      ((l.foldl dedupeStep m).map Prod.fst).Nodup
  | [], _, h => h
  | v :: rest, m, h => by
    rw [List.foldl_cons]
    apply dedupe_fold_keys_nodup rest
    unfold dedupeStep
    cases hfind : findVal v.dedupe_key m with
    | none =>
      have hnotin : v.dedupe_key ∉ m.map Prod.fst := (findVal_none_iff _ m).mp hfind
      simp [List.nodup_append, h, hnotin]
    | some cur =>
      simp only []
      by_cases hh : is_higher_priority v cur = true
      · rw [if_pos hh, keys_upsertAssoc_of_some v hfind]
        exact h
      · rw [if_neg hh]
        exact h

theorem dedupeStep_mono (m : List (String × Candidate)) (v : Candidate)
    (k : String) (w : Candidate) (h : findVal k m = some w) :
    ∃ w1, findVal k (dedupeStep m v) = some w1 ∧ prioKey w ≤ prioKey w1 := by
  unfold dedupeStep
  by_cases hk : v.dedupe_key = k
  · subst hk
    rw [h]
    simp only []
    by_cases hh : is_higher_priority v w = true
    · refine ⟨v, ?_, ?_⟩
      · rw [if_pos hh]
        exact findVal_upsertAssoc_self _ _ _
      · exact le_of_lt (of_decide_eq_true hh)
    · rw [if_neg hh]
      exact ⟨w, h, le_refl _⟩
  · have hne : k ≠ v.dedupe_key := fun he => hk he.symm
    cases hfind : findVal v.dedupe_key m with
    | none =>
      refine ⟨w, ?_, le_refl _⟩
      simp only []
      rw [findVal_append k m [(v.dedupe_key, v)], h]
    | some cur =>
      simp only []
      by_cases hh : is_higher_priority v cur = true
      · refine ⟨w, ?_, le_refl _⟩
        rw [if_pos hh, findVal_upsertAssoc_ne _ _ _ hne m]
        exact h
      · rw [if_neg hh]
        exact ⟨w, h, le_refl _⟩

theorem dedupe_fold_mono :
    ∀ (l : List Candidate) (m : List (String × Candidate)) (k : String) (w : Candidate),
      findVal k m = some w →
      ∃ w2, findVal k (l.foldl dedupeStep m) = some w2 ∧ prioKey w ≤ prioKey w2
  | [], _, _, w, h => ⟨w, h, le_refl _⟩
  | v :: rest, m, k, w, h => by
    rw [List.foldl_cons]
    obtain ⟨w1, hw1, hle1⟩ := dedupeStep_mono m v k w h
    obtain ⟨w2, hw2, hle2⟩ := dedupe_fold_mono rest (dedupeStep m v) k w1 hw1
    exact ⟨w2, hw2, le_trans hle1 hle2⟩

theorem dedupeStep_self (m : List (String × Candidate)) (v : Candidate) :
    ∃ w, findVal v.dedupe_key (dedupeStep m v) = some w ∧ prioKey v ≤ prioKey w := by
  unfold dedupeStep
  cases hfind : findVal v.dedupe_key m with
  | none =>
    refine ⟨v, ?_, le_refl _⟩
    simp only []
    rw [findVal_append _ m [(v.dedupe_key, v)], hfind]
    simp [findVal]
  | some cur =>
    simp only []
    by_cases hh : is_higher_priority v cur = true
    · refine ⟨v, ?_, le_refl _⟩
      rw [if_pos hh]
      exact findVal_upsertAssoc_self _ _ _
    · refine ⟨cur, ?_, ?_⟩
      · rw [if_neg hh]
        exact hfind
      · exact not_lt.mp (of_decide_eq_false (Bool.not_eq_true _ ▸ hh))

theorem dedupe_fold_covers :
    ∀ (l : List Candidate) (m : List (String × Candidate)) (v : Candidate), v ∈ l →
      ∃ w, findVal v.dedupe_key (l.foldl dedupeStep m) = some w ∧ prioKey v ≤ prioKey w
  | [], _, _, hv => absurd hv (List.not_mem_nil _)
  | v0 :: rest, m, v, hv => by
    rw [List.foldl_cons]
    rcases List.mem_cons.mp hv with h1 | h1
    · subst h1
      obtain ⟨w0, hw0, hle0⟩ := dedupeStep_self m v
      obtain ⟨w2, hw2, hle2⟩ := dedupe_fold_mono rest (dedupeStep m v) v.dedupe_key w0 hw0
      exact ⟨w2, hw2, le_trans hle0 hle2⟩
    · exact dedupe_fold_covers rest (dedupeStep m v0) v h1

/-- C2: deduplication keeps exactly one candidate per dedupe key (the kept
keys are pairwise distinct), the kept candidate's priority tuple
(is-official, source-priority, view-count, comment-count, upload-date,
lexicographic descending) dominates every id-deduped candidate sharing its
key, and concretely the authoritative priority-3 / 100-view candidate
always beats the general-search priority-1 / 100000-view candidate sharing
its key. -/
theorem C2_dedupe_priority :
    (∀ l : List Candidate, ((dedupeCandidates l).map Candidate.dedupe_key).Nodup) ∧
    (∀ (l : List Candidate) (v : Candidate), v ∈ dedupeById l →
      ∃ w ∈ dedupeCandidates l, w.dedupe_key = v.dedupe_key ∧ prioKey v ≤ prioKey w) ∧
    (dedupeCandidates [exSearch, exOfficial] = [exOfficial] ∧
      dedupeCandidates [exOfficial, exSearch] = [exOfficial]) := by
  refine ⟨?_, ?_, by decide, by decide⟩
  · intro l
    have hcons := dedupe_fold_keys_consistent (dedupeById l) [] (by simp)
    have hnd := dedupe_fold_keys_nodup (dedupeById l) [] (by simp)
    have hmaps :
        ((dedupeById l).foldl dedupeStep []).map
            (fun p : String × Candidate => p.2.dedupe_key)
          = ((dedupeById l).foldl dedupeStep []).map Prod.fst :=
      List.map_congr_left (fun p hp => hcons p hp)
    unfold dedupeCandidates
    rw [List.map_map]
    exact hmaps ▸ hnd
  · intro l v hv
    obtain ⟨w, hw, hle⟩ := dedupe_fold_covers (dedupeById l) [] v hv
    have hkc := dedupe_fold_keys_consistent (dedupeById l) [] (by simp)
    have hmem : (v.dedupe_key, w) ∈ (dedupeById l).foldl dedupeStep [] :=
      findVal_some_mem hw
    exact ⟨w, List.mem_map_of_mem Prod.snd hmem, hkc _ hmem, hle⟩

/-- Witness for C2: the dominated general-search candidate is represented
by a kept winner with its key and at least its priority tuple. -/
theorem C2_dedupe_witness :
    ∃ w ∈ dedupeCandidates [exSearch, exOfficial],
      w.dedupe_key = exSearch.dedupe_key ∧ prioKey exSearch ≤ prioKey w :=
  C2_dedupe_priority.2.1 [exSearch, exOfficial] exSearch (by decide)

/-! ### C8: dry-run persists metadata, never touches transcripts -/

theorem mergeRow_keeps_transcript (now : String) (row : VideoRow) (c : Candidate) :
    transcriptFields (mergeRow now row c) = transcriptFields row :=
  rfl

theorem upsert_step_frame (now : String) (videos : List (String × VideoRow))
    (c : Candidate) (vid : String) (row2 : VideoRow)
    (h : findVal vid (upsertVideo now videos c) = some row2) :
    (∃ row, findVal vid videos = some row ∧ transcriptFields row2 = transcriptFields row) ∨
      (findVal vid videos = none ∧ transcriptFields row2 = pendingFields) := by
  unfold upsertVideo at h
  cases hfind : findVal c.video_id videos with
  | none =>
    rw [hfind] at h
    simp only [] at h
    rw [findVal_append] at h
    cases hv : findVal vid videos with
    | some row =>
      rw [hv] at h
      simp only [Option.some.injEq] at h
      exact Or.inl ⟨row, rfl, by rw [h]⟩
    | none =>
      rw [hv] at h
      simp only [findVal] at h
      by_cases hc : c.video_id = vid
      · rw [if_pos hc] at h
        simp only [Option.some.injEq] at h
        exact Or.inr ⟨rfl, by rw [← h]; rfl⟩
      · rw [if_neg hc] at h
        cases h
  | some row0 =>
    rw [hfind] at h
    simp only [] at h
    by_cases hc : vid = c.video_id
    · subst hc
      rw [findVal_upsertAssoc_self] at h
      simp only [Option.some.injEq] at h
      exact Or.inl ⟨row0, hfind, by rw [← h]; rfl⟩
    · rw [findVal_upsertAssoc_ne _ _ _ hc] at h
      exact Or.inl ⟨row2, h, rfl⟩

theorem upsert_keeps_some (now : String) (videos : List (String × VideoRow))
    (c : Candidate) (vid : String) (row : VideoRow)
    (h : findVal vid videos = some row) :
    ∃ row2, findVal vid (upsertVideo now videos c) = some row2 := by
  unfold upsertVideo
  cases hfind : findVal c.video_id videos with
  | none =>
    refine ⟨row, ?_⟩
    simp only []
    rw [findVal_append vid videos [(c.video_id, newRow now c)], h]
  | some row0 =>
    by_cases hc : vid = c.video_id
    · subst hc
      exact ⟨mergeRow now row0 c, findVal_upsertAssoc_self _ _ _⟩
    · refine ⟨row, ?_⟩
      simp only []
      rw [findVal_upsertAssoc_ne _ _ _ hc]
      exact h

theorem upsert_fold_keeps (now : String) :
    ∀ (l : List Candidate) (videos : List (String × VideoRow)) (vid : String) (row : VideoRow),
      findVal vid videos = some row →
      ∃ row2, findVal vid (l.foldl (upsertVideo now) videos) = some row2
  | [], _, _, row, h => ⟨row, h⟩
  | c :: rest, videos, vid, row, h => by
    rw [List.foldl_cons]
    obtain ⟨row1, h1⟩ := upsert_keeps_some now videos c vid row h
    exact upsert_fold_keeps now rest _ vid row1 h1

theorem upsert_fold_frame (now : String) :
    ∀ (l : List Candidate) (videos : List (String × VideoRow)) (vid : String) (row2 : VideoRow),
      findVal vid (l.foldl (upsertVideo now) videos) = some row2 →
      (∃ row, findVal vid videos = some row ∧ transcriptFields row2 = transcriptFields row) ∨
        (findVal vid videos = none ∧ transcriptFields row2 = pendingFields)
  | [], _, _, row2, h => Or.inl ⟨row2, h, rfl⟩
  | c :: rest, videos, vid, row2, h => by
    rw [List.foldl_cons] at h
    rcases upsert_fold_frame now rest (upsertVideo now videos c) vid row2 h with
      ⟨row1, h1, htf⟩ | ⟨h1, htf⟩
    · rcases upsert_step_frame now videos c vid row1 h1 with ⟨row0, h0, htf0⟩ | ⟨h0, htf0⟩
      · exact Or.inl ⟨row0, h0, htf.trans htf0⟩
      · exact Or.inr ⟨h0, htf.trans htf0⟩
    · have hnone : findVal vid videos = none := by
        cases hv : findVal vid videos with
        | none => rfl
        | some row =>
          obtain ⟨row3, h3⟩ := upsert_keeps_some now videos c vid row hv
          rw [h3] at h1
          cases h1
      exact Or.inr ⟨hnone, htf⟩

theorem upsert_fold_presence (now : String) :
    ∀ (l : List Candidate) (videos : List (String × VideoRow)) (c : Candidate), c ∈ l →
      ∃ row2, findVal c.video_id (l.foldl (upsertVideo now) videos) = some row2
  | [], _, _, hc => absurd hc (List.not_mem_nil _)
  | c0 :: rest, videos, c, hc => by
    rw [List.foldl_cons]
    rcases List.mem_cons.mp hc with h1 | h1
    · subst h1
      have hstep : ∃ row, findVal c.video_id (upsertVideo now videos c) = some row := by
        unfold upsertVideo
        cases hfind : findVal c.video_id videos with
        | none =>
          refine ⟨newRow now c, ?_⟩
          simp only []
          rw [findVal_append _ videos [(c.video_id, newRow now c)], hfind]
          simp [findVal]
        | some row0 =>
          exact ⟨mergeRow now row0 c, findVal_upsertAssoc_self _ _ _⟩
      obtain ⟨row, hrow⟩ := hstep
      exact upsert_fold_keeps now rest _ _ row hrow
    · exact upsert_fold_presence now rest (upsertVideo now videos c0) c h1

/-- C8: a dry-run collect performs no transcript fetches, every surviving
candidate is upserted into the store, and every stored row's transcript
sub-record is exactly what it was before the run — 'pending' defaults for
rows the run inserted. -/
theorem C8_dry_run_frame (env : CollectEnv) (inc force : Bool)
    (seasons : List Int) (st : RepoState) :
    (collectModel env inc true force seasons st).2.1 = [] ∧
    (∀ (vid : String) (row2 : VideoRow),
      findVal vid (collectModel env inc true force seasons st).1.videos = some row2 →
      (∃ row, findVal vid st.videos = some row ∧
          transcriptFields row2 = transcriptFields row) ∨
        (findVal vid st.videos = none ∧ transcriptFields row2 = pendingFields)) ∧
    (∀ c ∈ survivors env inc (ensure_season_list seasons),
      ensure_season_list seasons ≠ [] →
      ∃ row2, findVal c.video_id (collectModel env inc true force seasons st).1.videos
        = some row2) := by
  by_cases hsel : ensure_season_list seasons = []
  · refine ⟨by simp [collectModel, hsel], ?_, ?_⟩
    · intro vid row2 h
      simp only [collectModel, hsel, if_pos rfl] at h
      exact Or.inl ⟨row2, h, rfl⟩
    · intro c _ hne
      exact absurd hsel hne
  · have hvid : (collectModel env inc true force seasons st).1.videos
        = (survivors env inc (ensure_season_list seasons)).foldl
            (upsertVideo env.now) st.videos := by
      simp [collectModel, hsel, createJob, finishJob]
    refine ⟨by simp [collectModel, hsel], ?_, ?_⟩
    · intro vid row2 h
      rw [hvid] at h
      exact upsert_fold_frame env.now _ st.videos vid row2 h
    · intro c hc _
      rw [hvid]
      exact upsert_fold_presence env.now _ st.videos c hc

/-- Witness for C8: after a concrete dry run into an empty store, the
stored row for the discovered video exists with the pending transcript
defaults. -/
theorem C8_dry_run_witness :
    (∃ row, findVal "vidA" emptyRepo.videos = some row ∧
        transcriptFields (newRow "t0" c8cand) = transcriptFields row) ∨
      (findVal "vidA" emptyRepo.videos = none ∧
        transcriptFields (newRow "t0" c8cand) = pendingFields) :=
  (C8_dry_run_frame c8env true false [11] emptyRepo).2.1 "vidA" (newRow "t0" c8cand)
    (by decide)

/-! ### C10: hash normalization is not idempotent, but stabilizes -/

theorem lookup_pair_mem {c d : Char} :
    ∀ {l : List (Char × Char)}, l.lookup c = some d → (c, d) ∈ l
  | [], h => by simp at h
  | (k, v) :: rest, h => by
    rw [List.lookup_cons] at h
    cases hk : (c == k) with
    | true =>
      rw [hk] at h
      simp only [Option.some.injEq] at h
      have hck : c = k := beq_iff_eq.mp hk
      rw [hck, h]
      exact List.mem_cons_self (k, d) rest
    | false =>
      rw [hk] at h
      simp only [] at h
      exact List.mem_cons_of_mem _ (lookup_pair_mem h)

theorem table_vals_not_keys :
    ∀ p ∈ asciiLowerTable, asciiLowerTable.lookup p.2 = none := by
  decide

theorem pyToLower_fix (c : Char) : pyToLower (pyToLower c) = pyToLower c := by
  cases h : asciiLowerTable.lookup c with
  | none => simp [pyToLower, h]
  | some d =>
    have hd : asciiLowerTable.lookup d = none :=
      table_vals_not_keys (c, d) (lookup_pair_mem h)
    simp [pyToLower, h, hd]

theorem allowed_space_is_blank {c : Char} (ha : allowedHashChar c = true)
    (hs : isPySpace c = true) : c = ' ' := by
  simp only [isPySpace, Bool.or_eq_true, beq_iff_eq, or_assoc] at hs
  rcases hs with h | h | h | h | h | h
  · exact h
  · subst h; exact absurd ha (by decide)
  · subst h; exact absurd ha (by decide)
  · subst h; exact absurd ha (by decide)
  · subst h; exact absurd ha (by decide)
  · subst h; exact absurd ha (by decide)

theorem mem_subRuns {bad : Char → Bool} :
    ∀ {prev : Bool} {l : List Char} {c : Char}, c ∈ subRuns bad prev l → c = ' ' ∨ c ∈ l
  | _, [], _, h => by simp [subRuns] at h
  | prev, d :: rest, c, h => by
    unfold subRuns at h
    by_cases hb : bad d = true
    · rw [if_pos hb] at h
      by_cases hp : prev = true
      · rw [if_pos hp] at h
        rcases mem_subRuns h with h1 | h1
        · exact Or.inl h1
        · exact Or.inr (List.mem_cons_of_mem d h1)
      · rw [if_neg hp] at h
        rcases List.mem_cons.mp h with h1 | h1
        · exact Or.inl h1
        · rcases mem_subRuns h1 with h2 | h2
          · exact Or.inl h2
          · exact Or.inr (List.mem_cons_of_mem d h2)
    · rw [if_neg hb] at h
      rcases List.mem_cons.mp h with h1 | h1
      · exact Or.inr (by rw [h1]; exact List.mem_cons_self d rest)
      · rcases mem_subRuns h1 with h2 | h2
        · exact Or.inl h2
        · exact Or.inr (List.mem_cons_of_mem d h2)

theorem mem_stripList {l : List Char} {c : Char} (h : c ∈ stripList l) : c ∈ l := by
  unfold stripList at h
  rw [List.mem_reverse] at h
  have h1 := (List.dropWhile_sublist isPySpace).subset h
  rw [List.mem_reverse] at h1
  exact (List.dropWhile_sublist isPySpace).subset h1

theorem head?_dropWhile_not (p : Char → Bool) :
    ∀ (l : List Char) {c : Char}, (l.dropWhile p).head? = some c → p c = false
  | [], c, h => by simp at h
  | a :: t, c, h => by
    rw [List.dropWhile_cons] at h
    by_cases ha : p a = true
    · rw [if_pos ha] at h
      exact head?_dropWhile_not p t h
    · rw [if_neg ha] at h
      simp only [List.head?_cons, Option.some.injEq] at h
      rw [Bool.not_eq_true] at ha
      rw [← h]
      exact ha

theorem subRuns_true_head :
    ∀ (l : List Char) {c : Char},
      (subRuns isPySpace true l).head? = some c → isPySpace c = false
  | [], c, h => by simp [subRuns] at h
  | d :: rest, c, h => by
    unfold subRuns at h
    by_cases hb : isPySpace d = true
    · rw [if_pos hb, if_pos rfl] at h
      exact subRuns_true_head rest h
    · rw [if_neg hb] at h
      simp only [List.head?_cons, Option.some.injEq] at h
      rw [Bool.not_eq_true] at hb
      rw [← h]
      exact hb

theorem subRuns_chain :
    ∀ (l : List Char) (prev : Bool), List.Chain' noSpacePair (subRuns isPySpace prev l)
  | [], _ => List.chain'_nil
  | d :: rest, prev => by
    unfold subRuns
    by_cases hb : isPySpace d = true
    · rw [if_pos hb]
      by_cases hp : prev = true
      · rw [if_pos hp]
        exact subRuns_chain rest true
      · rw [if_neg hp]
        refine List.chain'_cons'.mpr ⟨?_, subRuns_chain rest true⟩
        intro y hy
        rw [Option.mem_def] at hy
        have hny := subRuns_true_head rest hy
        intro hcon
        rw [hny] at hcon
        exact Bool.false_ne_true hcon.2
    · rw [if_neg hb]
      refine List.chain'_cons'.mpr ⟨?_, subRuns_chain rest false⟩
      intro y _
      exact fun hcon => hb hcon.1

theorem map_pyToLower_id :
    ∀ {l : List Char}, (∀ c ∈ l, pyToLower c = c) → lowerList l = l
  | [], _ => rfl
  | c :: rest, h => by
    have ht : lowerList rest = rest :=
      map_pyToLower_id (fun d hd => h d (List.mem_cons_of_mem c hd))
    unfold lowerList at ht ⊢
    rw [List.map_cons, h c (List.mem_cons_self c rest), ht]

theorem subRuns_true_of_head_not :
    ∀ (l : List Char), (∀ c, l.head? = some c → isPySpace c = false) →
      subRuns isPySpace true l = subRuns isPySpace false l
  | [], _ => rfl
  | d :: rest, h => by
    have hd : isPySpace d = false := h d rfl
    unfold subRuns
    simp [hd]

theorem subRuns_false_id :
    ∀ (l : List Char), (∀ c ∈ l, isPySpace c = true → c = ' ') →
      List.Chain' noSpacePair l → subRuns isPySpace false l = l
  | [], _, _ => rfl
  | d :: rest, hch, hchain => by
    have htail : subRuns isPySpace false rest = rest :=
      subRuns_false_id rest (fun c hc h2 => hch c (List.mem_cons_of_mem d hc) h2)
        hchain.tail
    unfold subRuns
    by_cases hb : isPySpace d = true
    · have hd : d = ' ' := hch d (List.mem_cons_self d rest) hb
      rw [if_pos hb, if_neg (by simp : ¬(false = true))]
      have hhead : ∀ c, rest.head? = some c → isPySpace c = false := by
        intro c hc
        have hpair := (List.chain'_cons'.mp hchain).1 c (by rw [Option.mem_def]; exact hc)
        cases hcs : isPySpace c with
        | true => exact absurd ⟨hb, hcs⟩ hpair
        | false => rfl
      rw [subRuns_true_of_head_not rest hhead, htail, hd]
    · rw [if_neg hb, htail]

theorem dropWhile_eq_self_of_head :
    ∀ (l : List Char), (∀ c, l.head? = some c → isPySpace c = false) →
      l.dropWhile isPySpace = l
  | [], _ => rfl
  | a :: t, h => by
    rw [List.dropWhile_cons]
    simp [h a rfl]

theorem stripList_id (l : List Char)
    (hhead : ∀ c, l.head? = some c → isPySpace c = false)
    (hlast : ∀ c, l.getLast? = some c → isPySpace c = false) :
    stripList l = l := by
  unfold stripList
  rw [dropWhile_eq_self_of_head l hhead]
  have hrev : ∀ c, l.reverse.head? = some c → isPySpace c = false := by
    intro c hc
    rw [List.head?_reverse] at hc
    exact hlast c hc
  rw [dropWhile_eq_self_of_head l.reverse hrev, List.reverse_reverse]

theorem chain'_dropWhile {l : List Char} (h : List.Chain' noSpacePair l) :
    List.Chain' noSpacePair (l.dropWhile isPySpace) := by
  have hs : l.dropWhile isPySpace <:+ l := List.dropWhile_suffix isPySpace
  obtain ⟨t, ht⟩ := hs
  rw [← ht] at h
  exact (List.chain'_append.mp h).2.1

theorem chain'_reverse_p {l : List Char} (h : List.Chain' noSpacePair l) :
    List.Chain' noSpacePair l.reverse := by
  rw [List.chain'_reverse]
  exact h.imp (fun a b hab hcon => hab ⟨hcon.2, hcon.1⟩)

theorem chain'_stripList {l : List Char} (h : List.Chain' noSpacePair l) :
    List.Chain' noSpacePair (stripList l) :=
  chain'_reverse_p (chain'_dropWhile (chain'_reverse_p (chain'_dropWhile h)))

theorem stripList_head (l : List Char) :
    ∀ c, (stripList l).head? = some c → isPySpace c = false := by
  intro c h
  unfold stripList at h
  rw [List.head?_reverse] at h
  by_cases hY : (l.dropWhile isPySpace).reverse.dropWhile isPySpace = []
  · rw [hY] at h
    simp at h
  · have hs : (l.dropWhile isPySpace).reverse.dropWhile isPySpace
        <:+ (l.dropWhile isPySpace).reverse := List.dropWhile_suffix isPySpace
    obtain ⟨t, ht⟩ := hs
    have hlast : ((l.dropWhile isPySpace).reverse).getLast? = some c := by
      rw [← ht, List.getLast?_append, h]
      rfl
    rw [List.getLast?_reverse] at hlast
    exact head?_dropWhile_not isPySpace l hlast

theorem stripList_last (l : List Char) :
    ∀ c, (stripList l).getLast? = some c → isPySpace c = false := by
  intro c h
  unfold stripList at h
  rw [List.getLast?_reverse] at h
  exact head?_dropWhile_not isPySpace _ h

theorem hashNormList_chars (l : List Char) :
    ∀ c ∈ hashNormList l, allowedHashChar c = true ∧ pyToLower c = c := by
  intro c hc
  unfold hashNormList at hc
  have hc1 := mem_stripList hc
  obtain ⟨hmem, hall⟩ := List.mem_filter.mp hc1
  refine ⟨hall, ?_⟩
  rcases mem_subRuns hmem with h | h
  · rw [h]; decide
  · obtain ⟨d, _, hd⟩ := List.mem_map.mp h
    rw [← hd]
    exact pyToLower_fix d

theorem hashNormList_canonical_of_chars (l : List Char)
    (hall : ∀ c ∈ l, allowedHashChar c = true ∧ pyToLower c = c) :
    hashCanonical (hashNormList l) := by
  have hlow : lowerList l = l := map_pyToLower_id (fun c hc => (hall c hc).2)
  have hchain2 : List.Chain' noSpacePair (subRuns isPySpace false l) :=
    subRuns_chain l false
  have hmem2 : ∀ c ∈ subRuns isPySpace false l,
      allowedHashChar c = true ∧ pyToLower c = c := by
    intro c hc
    rcases mem_subRuns hc with h | h
    · rw [h]
      exact ⟨by decide, by decide⟩
    · exact hall c h
  have hfil : List.filter allowedHashChar (subRuns isPySpace false l)
      = subRuns isPySpace false l :=
    List.filter_eq_self.mpr (fun c hc => (hmem2 c hc).1)
  refine ⟨?_, ?_, ?_, ?_⟩
  · unfold hashNormList
    rw [hlow, hfil]
    intro c hc
    exact hmem2 c (mem_stripList hc)
  · unfold hashNormList
    rw [hlow, hfil]
    exact chain'_stripList hchain2
  · unfold hashNormList
    exact stripList_head _
  · unfold hashNormList
    exact stripList_last _

theorem hashNormList_id_of_canonical (l : List Char) (h : hashCanonical l) :
    hashNormList l = l := by
  obtain ⟨hall, hchain, hhead, hlast⟩ := h
  unfold hashNormList
  rw [map_pyToLower_id (fun c hc => (hall c hc).2)]
  rw [subRuns_false_id l (fun c hc hs => allowed_space_is_blank (hall c hc).1 hs) hchain]
  rw [List.filter_eq_self.mpr (fun c hc => (hall c hc).1)]
  exact stripList_id l hhead hlast

theorem hashNormList_stabilizes (l : List Char) :
    hashNormList (hashNormList (hashNormList l)) = hashNormList (hashNormList l) :=
  hashNormList_id_of_canonical _ (hashNormList_canonical_of_chars _ (hashNormList_chars l))

/-- C10 counterexample: normalize_text_for_hash is not idempotent —
removing the disallowed "." of "a . b" merges its two whitespace runs into
a double space that only a second pass collapses. -/
theorem C10_not_idempotent :
    normalize_text_for_hash (normalize_text_for_hash "a . b")
      ≠ normalize_text_for_hash "a . b" := by
  decide

/-- C10 (amended): one application of normalize_text_for_hash need not be
a fixed point, but a second application always is
(normalize ∘ normalize ∘ normalize = normalize ∘ normalize); hence
transcript_hash — the external digest of the normalized text — agrees on a
once-normalized and a twice-normalized text, though not in general on a
text and its normalized form. -/
theorem C10_normalize_stabilizes (digest : String → String) (s : String) :
    normalize_text_for_hash (normalize_text_for_hash (normalize_text_for_hash s))
      = normalize_text_for_hash (normalize_text_for_hash s) ∧
    transcript_hash digest (normalize_text_for_hash s)
      = transcript_hash digest (normalize_text_for_hash (normalize_text_for_hash s)) := by
  have h := hashNormList_stabilizes s.data
  exact ⟨congrArg String.mk h, congrArg digest (congrArg String.mk h.symm)⟩

end Nasol
